import Mathlib

/-!
Verification development for the `final_vpn` repository: a shallow embedding
of its hybrid-handshake, AEAD record layer, identity store, wire codec and
server forwarding core, together with theorems settling the specification's
claims about them.

Modelling conventions:
* a Rust `u8` is a `Nat`; byte strings (`Vec<u8>`, `[u8; N]`, `&[u8]`) are
  `List Nat`;
* cryptographic library primitives (X25519, ML-KEM-768, BLAKE3,
  ChaCha20-Poly1305, Ed25519) are parameters of the embedded functions: the
  repository calls them through external crates, so each is passed in as a
  function record, and theorems that need their correctness contract state it
  as an explicit hypothesis;
* fallible Rust functions returning `anyhow::Result` become `Except String`;
* random values drawn from `OsRng` become explicit arguments;
* `HashMap` tables become association lists with insert-overwrites semantics.
-/

/-- Byte strings: a Rust `Vec<u8>` / `&[u8]` value, each element a `u8`. -/
abbrev Bytes := List Nat

/-- Little-endian digits: `toLE k n` is the `k`-byte little-endian encoding
of `n` (mod `256^k`), as written by bincode for fixed-width integers. -/
def toLE : Nat → Nat → Bytes
  | 0, _ => []
  | k + 1, n => n % 256 :: toLE k (n / 256)

/-- Value of a little-endian digit list. -/
def fromLE : Bytes → Nat
  | [] => 0
  | d :: ds => d + 256 * fromLE ds

theorem length_toLE (k n : Nat) : (toLE k n).length = k := by
  induction k generalizing n with
  | zero => rfl
  | succ k ih => simp [toLE, ih]

theorem fromLE_toLE (k n : Nat) : fromLE (toLE k n) = n % 256 ^ k := by
  induction k generalizing n with
  | zero => simp [toLE, fromLE, Nat.mod_one]
  | succ k ih =>
    have h : (256 : Nat) ^ (k + 1) = 256 * 256 ^ k := by ring
    rw [toLE, fromLE, ih, h, Nat.mod_mul]

/-- Split off exactly `n` leading bytes, failing when the input is shorter. -/
def takeExact (n : Nat) (l : Bytes) : Option (Bytes × Bytes) :=
  if n ≤ l.length then some (l.take n, l.drop n) else none

theorem takeExact_append {n : Nat} {a b : Bytes} (h : a.length = n) :
    takeExact n (a ++ b) = some (a, b) := by
  subst h
  simp [takeExact, List.take_left, List.drop_left]

/-- Association-list lookup, first match wins (HashMap `get`). -/
def mapLookup {κ α : Type} [DecidableEq κ] (m : List (κ × α)) (k : κ) : Option α :=
  match m with
  | [] => none
  | (k', v) :: rest => if k' = k then some v else mapLookup rest k

/-- Association-list insert with overwrite (HashMap `insert`). -/
def mapInsert {κ α : Type} [DecidableEq κ] (m : List (κ × α)) (k : κ) (v : α) :
    List (κ × α) :=
  (k, v) :: m.filter (fun p => p.1 ≠ k)

theorem mapLookup_insert_self {κ α : Type} [DecidableEq κ]
    (m : List (κ × α)) (k : κ) (v : α) : mapLookup (mapInsert m k v) k = some v := by
  simp [mapInsert, mapLookup]

theorem mapLookup_insert {κ α : Type} [DecidableEq κ]
    (m : List (κ × α)) (k k' : κ) (v v' : α)
    (h : mapLookup (mapInsert m k v) k' = some v') :
    (k' = k ∧ v' = v) ∨ mapLookup m k' = some v' := by
  by_cases hk : k = k'
  · subst hk
    rw [mapLookup_insert_self] at h
    exact Or.inl ⟨rfl, (Option.some_inj.mp h).symm⟩
  · right
    rw [mapInsert] at h
    rw [mapLookup] at h
    rw [if_neg hk] at h
    induction m with
    | nil => simp [mapLookup] at h
    | cons p rest ih =>
      by_cases hp : p.1 = k
      · have : (List.filter (fun q => decide (q.1 ≠ k)) (p :: rest)) =
            List.filter (fun q => decide (q.1 ≠ k)) rest := by
          simp [List.filter, hp]
        rw [this] at h
        have hrest := ih h
        rw [mapLookup]
        rw [if_neg (fun hpk => hk (hp.symm.trans hpk))]
        exact hrest
      · rcases p with ⟨pk, pv⟩
        simp only at hp
        have : (List.filter (fun q => decide (q.1 ≠ k)) ((pk, pv) :: rest)) =
            (pk, pv) :: List.filter (fun q => decide (q.1 ≠ k)) rest := by
          simp [List.filter, hp]
        rw [this] at h
        rw [mapLookup] at h ⊢
        by_cases hq : pk = k'
        · rwa [if_pos hq] at h ⊢
        · rw [if_neg hq] at h ⊢
          exact ih h

/-! ## ChaCha20-Poly1305 primitive and `symmetric.rs` (`Cipher`)

The `chacha20poly1305` crate is external; it is modelled by a record of an
encrypt and a decrypt function. `enc key nonce plaintext` returns the
ciphertext-with-tag (`None` for the crate's opaque failure), and
`dec key nonce ct` returns the recovered plaintext or `None` on any
authentication/corruption failure. -/

structure Aead where
  enc : Bytes → Bytes → Bytes → Option Bytes
  dec : Bytes → Bytes → Bytes → Option Bytes

/-- Source constant `KEY_SIZE` of `symmetric.rs`. -/
def KEY_SIZE : Nat := 32

/-- Source constant `NONCE_SIZE` of `symmetric.rs`. -/
def NONCE_SIZE : Nat := 12

/-- The `Cipher` struct: its `inner` keyed AEAD instance is represented by
the key it was constructed from. -/
structure Cipher where
  key : Bytes

/-- Embeds `Cipher::new`: reject any key whose length is not `KEY_SIZE`. -/
def Cipher.new (key_bytes : Bytes) : Except String Cipher :=
  if key_bytes.length ≠ KEY_SIZE then
    .error "Key length must be 32 bytes"
  else
    .ok ⟨key_bytes⟩

/-- Embeds `Cipher::encrypt`. The freshly drawn random nonce is an explicit
argument; the output packet is `nonce ++ ciphertext`. -/
def Cipher.encrypt (A : Aead) (c : Cipher) (nonce : Bytes) (plaintext : Bytes) :
    Except String Bytes :=
  match A.enc c.key nonce plaintext with
  | none => .error "Encryption failed"
  | some ciphertext => .ok (nonce ++ ciphertext)

/-- Embeds `Cipher::decrypt`: length check, split off the 12-byte nonce,
feed the remainder to AEAD open; any AEAD failure maps to one fixed error. -/
def Cipher.decrypt (A : Aead) (c : Cipher) (encrypted_data : Bytes) :
    Except String Bytes :=
  if encrypted_data.length < NONCE_SIZE then
    .error "Data too short"
  else
    match A.dec c.key (encrypted_data.take NONCE_SIZE)
        (encrypted_data.drop NONCE_SIZE) with
    | none => .error "Decryption failed (invalid key or tampered data)"
    | some plaintext => .ok plaintext

/-- Concrete AEAD instance used by closed witnesses: encryption is the
identity on the plaintext and decryption the identity on the ciphertext,
which satisfies the AEAD round-trip contract. -/
def aeadId : Aead where
  enc := fun _ _ pt => some pt
  dec := fun _ _ ct => some ct

/-- C3: decrypting (under a Cipher built from `k`) the output of encrypting
`m` (under a Cipher built from the same `k`) returns `m`, for every key
accepted by `Cipher::new`, given the AEAD primitive's round-trip contract
and a 12-byte nonce. -/
theorem cipher_roundtrip (A : Aead) (k nonce m pkt : Bytes) (c : Cipher)
    (hA : ∀ key n pt ct, A.enc key n pt = some ct → A.dec key n ct = some pt)
    (hnonce : nonce.length = NONCE_SIZE)
    (hnew : Cipher.new k = .ok c)
    (henc : c.encrypt A nonce m = .ok pkt) :
    c.decrypt A pkt = .ok m := by
  have hk : c.key = k := by
    unfold Cipher.new at hnew
    by_cases h : k.length ≠ KEY_SIZE
    · rw [if_pos h] at hnew; cases hnew
    · rw [if_neg h] at hnew; cases hnew; rfl
  unfold Cipher.encrypt at henc
  cases hct : A.enc c.key nonce m with
  | none => rw [hct] at henc; cases henc
  | some ct =>
    rw [hct] at henc
    have hpkt : pkt = nonce ++ ct := by
      cases henc; rfl
    subst hpkt
    unfold Cipher.decrypt
    have hlen : ¬ (nonce ++ ct).length < NONCE_SIZE := by
      simp [List.length_append, hnonce]
    rw [if_neg hlen]
    have htake : (nonce ++ ct).take NONCE_SIZE = nonce := List.take_left' hnonce
    have hdrop : (nonce ++ ct).drop NONCE_SIZE = ct := List.drop_left' hnonce
    rw [htake, hdrop, hA c.key nonce m ct hct]

/-- Witness for C3 at a concrete key, nonce and message. -/
theorem cipher_roundtrip_witness :
    Cipher.decrypt aeadId ⟨List.replicate 32 0⟩
      (List.replicate 12 7 ++ [1, 2, 3]) = .ok [1, 2, 3] :=
  cipher_roundtrip aeadId (List.replicate 32 0) (List.replicate 12 7)
    [1, 2, 3] (List.replicate 12 7 ++ [1, 2, 3]) ⟨List.replicate 32 0⟩
    (fun _ _ _ _ h => by simpa [aeadId] using h.symm)
    (by decide) rfl rfl

/-- C7: `Cipher::decrypt` yields the "too short" error exactly on inputs of
fewer than 12 bytes; on any input of at least 12 bytes it feeds the first 12
bytes as nonce and the rest to AEAD open, and every AEAD failure — whether
authentication failure or corruption — yields the single fixed error value. -/
theorem decrypt_error_cases (A : Aead) (c : Cipher) (data : Bytes) :
    (c.decrypt A data = .error "Data too short" ↔ data.length < 12) ∧
    (12 ≤ data.length →
      c.decrypt A data =
        match A.dec c.key (data.take 12) (data.drop 12) with
        | none => .error "Decryption failed (invalid key or tampered data)"
        | some plaintext => .ok plaintext) := by
  constructor
  · constructor
    · intro h
      by_contra hlen
      unfold Cipher.decrypt at h
      rw [if_neg (by simpa [NONCE_SIZE] using hlen)] at h
      cases hdec : A.dec c.key (data.take NONCE_SIZE) (data.drop NONCE_SIZE) with
      | none => rw [hdec] at h; simp at h
      | some pt => rw [hdec] at h; cases h
    · intro h
      unfold Cipher.decrypt
      rw [if_pos (by simpa [NONCE_SIZE] using h)]
  · intro h
    unfold Cipher.decrypt
    rw [if_neg (by simp [NONCE_SIZE]; omega)]
    rfl

/-- Witness for C7: the too-short case at a 3-byte input and the
at-least-12-byte case at a 12-byte input. -/
theorem decrypt_error_cases_witness :
    Cipher.decrypt aeadId ⟨List.replicate 32 0⟩ [0, 1, 2] = .error "Data too short" ∧
    Cipher.decrypt aeadId ⟨List.replicate 32 0⟩ (List.replicate 12 0) = .ok [] := by
  constructor
  · exact (decrypt_error_cases aeadId ⟨List.replicate 32 0⟩ [0, 1, 2]).1.mpr (by decide)
  · have h := (decrypt_error_cases aeadId ⟨List.replicate 32 0⟩
      (List.replicate 12 0)).2 (by decide)
    simpa [aeadId] using h

/-! ## Cryptographic primitives of `handshake.rs`

`x25519_dalek`, `pqc_kyber` and `blake3` are external crates. X25519 is a
record of the public-key derivation (`PublicKey::from(&secret)`) and the
Diffie-Hellman operation; secrets drawn from `OsRng` are `Nat` parameters.
ML-KEM-768 is a record of key generation, encapsulation and decapsulation,
with explicit RNG arguments and `Option` for the crate's fallible results.
BLAKE3 is a function from the full hashed input to the digest; the crate's
incremental `Hasher` is modelled by buffering the updates. -/

structure X25519 where
  pub : Nat → Bytes
  dh : Nat → Bytes → Bytes

structure MLKeypair where
  public : Bytes
  secret : Bytes

structure MLKem where
  keypair : Nat → MLKeypair
  encap : Bytes → Nat → Option (Bytes × Bytes)
  decap : Bytes → Bytes → Option Bytes

/-- The `blake3::Hasher` accumulator: `update` appends to the buffered
input, `finalize` applies the hash function to the whole buffer. -/
structure Hasher where
  buf : Bytes

def Hasher.new : Hasher := ⟨[]⟩

def Hasher.update (h : Hasher) (data : Bytes) : Hasher := ⟨h.buf ++ data⟩

def Hasher.finalize (blake3 : Bytes → Bytes) (h : Hasher) : Bytes := blake3 h.buf

/-- UTF-8 bytes of the domain-separation label `"VPN_HYBRID_SESSION_KEY_V2"`. -/
def hybridLabel : Bytes := "VPN_HYBRID_SESSION_KEY_V2".toList.map Char.toNat

/-! ## `handshake.rs`: messages, state machines and key derivation -/

/-- The `HandshakeMessage` enum. Rust `String` fields (`client_id`,
`virtual_ip`) are carried as their UTF-8 byte lists. -/
inductive HandshakeMessage where
  | ClientHello (client_pubkey : Bytes) (client_mlkem_pk : Bytes)
      (client_id : Bytes) (virtual_ip : Bytes)
  | ServerHello (server_pubkey : Bytes) (mlkem_ciphertext : Bytes)
      (signature : Bytes)
  | ClientFinish (encrypted_confirm : Bytes)
  | ServerFinish (success : Bool)
deriving DecidableEq

/-- Embeds `derive_hybrid_session_key`: BLAKE3 over the label, the X25519
shared secret, the ML-KEM shared secret and the PSK, truncated to 32 bytes. -/
def derive_hybrid_session_key (blake3 : Bytes → Bytes)
    (ecdh_shared mlkem_shared psk : Bytes) : Bytes :=
  let h := Hasher.new
  let h := h.update hybridLabel
  let h := h.update ecdh_shared
  let h := h.update mlkem_shared
  let h := h.update psk
  (h.finalize blake3).take 32

/-- The `ClientHandshake` state: X25519 ephemeral secret and public key, an
ML-KEM-768 keypair and the PSK. -/
structure ClientHandshake where
  client_secret : Nat
  client_pubkey : Bytes
  mlkem_keypair : MLKeypair
  psk : Bytes

/-- Embeds `ClientHandshake::new`: the ephemeral X25519 secret and the RNG
driving ML-KEM key generation are explicit. -/
def ClientHandshake.new (x : X25519) (kem : MLKem) (secret rngM : Nat)
    (psk : Bytes) : ClientHandshake :=
  { client_secret := secret
    client_pubkey := x.pub secret
    mlkem_keypair := kem.keypair rngM
    psk := psk }

/-- Embeds `ClientHandshake::create_client_hello`. -/
def ClientHandshake.create_client_hello (st : ClientHandshake)
    (client_id virtual_ip : Bytes) : HandshakeMessage :=
  .ClientHello st.client_pubkey st.mlkem_keypair.public client_id virtual_ip

/-- Embeds `ClientHandshake::process_server_hello`: X25519 ECDH with the
server's ephemeral key, ML-KEM decapsulation, then the hybrid KDF. -/
def ClientHandshake.process_server_hello (x : X25519) (kem : MLKem)
    (blake3 : Bytes → Bytes) (st : ClientHandshake)
    (server_pubkey : Bytes) (mlkem_ciphertext : Bytes) : Except String Bytes :=
  let ecdh_shared := x.dh st.client_secret server_pubkey
  match kem.decap mlkem_ciphertext st.mlkem_keypair.secret with
  | none => .error "ML-KEM decapsulation failed"
  | some mlkem_shared =>
      .ok (derive_hybrid_session_key blake3 ecdh_shared mlkem_shared st.psk)

/-- The `ServerHandshake` state: X25519 ephemeral secret and public key and
the PSK. -/
structure ServerHandshake where
  server_secret : Nat
  server_pubkey : Bytes
  psk : Bytes

/-- Embeds `ServerHandshake::new`. -/
def ServerHandshake.new (x : X25519) (secret : Nat) (psk : Bytes) :
    ServerHandshake :=
  { server_secret := secret
    server_pubkey := x.pub secret
    psk := psk }

/-- Embeds `ServerHandshake::process_client_hello`: encapsulate to the
client's ML-KEM public key and emit a `ServerHello` whose `signature` field
is the empty placeholder vector, alongside the encapsulated shared secret. -/
def ServerHandshake.process_client_hello (kem : MLKem) (rng : Nat)
    (st : ServerHandshake) (_client_pubkey : Bytes) (client_mlkem_pk : Bytes) :
    Except String (HandshakeMessage × Bytes) :=
  match kem.encap client_mlkem_pk rng with
  | none => .error "ML-KEM encapsulation failed"
  | some (mlkem_ciphertext, mlkem_shared) =>
      .ok (.ServerHello st.server_pubkey mlkem_ciphertext [], mlkem_shared)

/-- Embeds `ServerHandshake::compute_session_key`: X25519 ECDH with the
client's ephemeral key, then the hybrid KDF over the already-held ML-KEM
shared secret. -/
def ServerHandshake.compute_session_key (x : X25519) (blake3 : Bytes → Bytes)
    (st : ServerHandshake) (client_pubkey : Bytes) (mlkem_shared : Bytes) :
    Except String Bytes :=
  let ecdh_shared := x.dh st.server_secret client_pubkey
  .ok (derive_hybrid_session_key blake3 ecdh_shared mlkem_shared st.psk)

/-- C2: the derived session key is the first 32 bytes of BLAKE3 over the
label, then the X25519 shared secret, then the ML-KEM shared secret, then
the PSK, concatenated in that order with no length framing. -/
theorem derive_key_is_labelled_hash (blake3 : Bytes → Bytes)
    (kE kM psk : Bytes) (_hpsk : psk.length = 32) :
    derive_hybrid_session_key blake3 kE kM psk =
      (blake3 (hybridLabel ++ kE ++ kM ++ psk)).take 32 := by
  simp [derive_hybrid_session_key, Hasher.new, Hasher.update, Hasher.finalize]

/-- Witness for C2 at the identity hash and concrete inputs. -/
theorem derive_key_is_labelled_hash_witness :
    derive_hybrid_session_key id [1] [2] (List.replicate 32 3) =
      (id (hybridLabel ++ [1] ++ [2] ++ List.replicate 32 3)).take 32 :=
  derive_key_is_labelled_hash id [1] [2] (List.replicate 32 3) (by decide)

/-- Concrete X25519 instance for closed witnesses: the public key of `n` is
`[n]` and `dh a [b] = [a + b]`, which commutes as the DH contract requires. -/
def xAdd : X25519 where
  pub := fun n => [n]
  dh := fun a b => [a + b.headD 0]

/-- Concrete ML-KEM instance for closed witnesses: the keypair of `r` is
`([r], [r])`, encapsulation to `pk` yields ciphertext and shared secret both
`pk`, and decapsulation returns the ciphertext. -/
def kemEcho : MLKem where
  keypair := fun r => ⟨[r], [r]⟩
  encap := fun pk _ => some (pk, pk)
  decap := fun ct _ => some ct

/-- C1: in an honest run — the `ClientHello` delivered unmodified, the
resulting `ServerHello` delivered unmodified back, one shared 32-byte PSK —
the session key `ClientHandshake::process_server_hello` returns equals the
one `ServerHandshake::compute_session_key` returns, given the X25519
commutativity contract and the ML-KEM encapsulation-decapsulation contract. -/
theorem handshake_agreement (x : X25519) (kem : MLKem) (blake3 : Bytes → Bytes)
    (psk : Bytes) (cSec sSec rngM rngK : Nat) (cid vip : Bytes)
    (cpk cmpk spk ct sig sh : Bytes)
    (hdh : ∀ a b, x.dh a (x.pub b) = x.dh b (x.pub a))
    (hkem : ∀ r r2 c s, kem.encap (kem.keypair r).public r2 = some (c, s) →
      kem.decap c (kem.keypair r).secret = some s)
    (_hpsk : psk.length = 32)
    (hch : (ClientHandshake.new x kem cSec rngM psk).create_client_hello cid vip =
      .ClientHello cpk cmpk cid vip)
    (hsh : (ServerHandshake.new x sSec psk).process_client_hello kem rngK cpk cmpk =
      .ok (.ServerHello spk ct sig, sh)) :
    ∃ k,
      (ClientHandshake.new x kem cSec rngM psk).process_server_hello x kem blake3 spk ct =
        .ok k ∧
      (ServerHandshake.new x sSec psk).compute_session_key x blake3 cpk sh = .ok k := by
  have hcpk : cpk = x.pub cSec := by
    cases hch; rfl
  have hcmpk : cmpk = (kem.keypair rngM).public := by
    cases hch; rfl
  subst hcpk
  subst hcmpk
  unfold ServerHandshake.process_client_hello at hsh
  cases henc : kem.encap (kem.keypair rngM).public rngK with
  | none => rw [henc] at hsh; cases hsh
  | some p =>
    rcases p with ⟨a, b⟩
    rw [henc] at hsh
    cases hsh
    have hdec := hkem rngM rngK ct sh henc
    refine ⟨derive_hybrid_session_key blake3 (x.dh cSec (x.pub sSec)) sh psk, ?_, ?_⟩
    · simp only [ClientHandshake.process_server_hello, ClientHandshake.new,
        ServerHandshake.new]
      rw [hdec]
    · simp only [ServerHandshake.compute_session_key, ServerHandshake.new,
        ClientHandshake.new]
      rw [hdh sSec cSec]

/-- Witness for C1 at concrete primitive instances and secrets. -/
theorem handshake_agreement_witness :
    ∃ k,
      (ClientHandshake.new xAdd kemEcho 5 6 (List.replicate 32 9)).process_server_hello
        xAdd kemEcho id [7] [6] = .ok k ∧
      (ServerHandshake.new xAdd 7 (List.replicate 32 9)).compute_session_key
        xAdd id [5] [6] = .ok k :=
  handshake_agreement xAdd kemEcho id (List.replicate 32 9) 5 7 6 8
    [] [] [5] [6] [7] [6] [] [6]
    (fun a b => by simp [xAdd, Nat.add_comm])
    (fun r r2 c s h => by
      simp only [kemEcho] at h ⊢
      cases h
      rfl)
    (by decide) rfl rfl

/-! ## Wire codec: `serialize_message` / `deserialize_message`

`bincode::serialize` with its default configuration writes the enum variant
index as a 4-byte little-endian `u32`, a `[u8; 32]` as 32 raw bytes, a
`Vec<u8>` or `String` as an 8-byte little-endian `u64` length followed by the
raw bytes, and a `bool` as a single `0`/`1` byte. `bincode::deserialize`
reads the same layout and ignores trailing bytes. -/

/-- Serialized form of one length-prefixed variable-length field. -/
def writeVec (payload : Bytes) : Bytes := toLE 8 payload.length ++ payload

/-- Embeds `serialize_message` (bincode encoding of `HandshakeMessage`). -/
def serialize_message : HandshakeMessage → Bytes
  | .ClientHello pk mpk cid vip =>
      toLE 4 0 ++ pk ++ writeVec mpk ++ writeVec cid ++ writeVec vip
  | .ServerHello spk ct sig =>
      toLE 4 1 ++ spk ++ writeVec ct ++ writeVec sig
  | .ClientFinish ec => toLE 4 2 ++ writeVec ec
  | .ServerFinish b => toLE 4 3 ++ [if b then 1 else 0]

/-- Read one length-prefixed variable-length field. -/
def readVec (l : Bytes) : Option (Bytes × Bytes) := do
  let (lenB, r) ← takeExact 8 l
  takeExact (fromLE lenB) r

/-- Decoding core of `deserialize_message`; `none` is bincode's error. -/
def deserializeCore (data : Bytes) : Option HandshakeMessage := do
  let (tagB, r0) ← takeExact 4 data
  if fromLE tagB = 0 then do
    let (pk, r1) ← takeExact 32 r0
    let (mpk, r2) ← readVec r1
    let (cid, r3) ← readVec r2
    let (vip, _) ← readVec r3
    pure (.ClientHello pk mpk cid vip)
  else if fromLE tagB = 1 then do
    let (spk, r1) ← takeExact 32 r0
    let (ct, r2) ← readVec r1
    let (sig, _) ← readVec r2
    pure (.ServerHello spk ct sig)
  else if fromLE tagB = 2 then do
    let (ec, _) ← readVec r0
    pure (.ClientFinish ec)
  else if fromLE tagB = 3 then do
    let (bB, _) ← takeExact 1 r0
    if bB = [0] then pure (.ServerFinish false)
    else if bB = [1] then pure (.ServerFinish true)
    else none
  else none

/-- Embeds `deserialize_message`: bincode decoding, error on failure. -/
def deserialize_message (data : Bytes) : Except String HandshakeMessage :=
  match deserializeCore data with
  | some m => .ok m
  | none => .error "Failed to deserialize message"

theorem takeExact_toLE (k n : Nat) (rest : Bytes) :
    takeExact k (toLE k n ++ rest) = some (toLE k n, rest) :=
  takeExact_append (length_toLE k n)

theorem readVec_writeVec (payload rest : Bytes) (h : payload.length < 256 ^ 8) :
    readVec (writeVec payload ++ rest) = some (payload, rest) := by
  unfold readVec writeVec
  rw [List.append_assoc, takeExact_toLE]
  simp only [Option.bind_eq_bind, Option.some_bind]
  rw [fromLE_toLE, Nat.mod_eq_of_lt h, takeExact_append rfl]

theorem readVec_writeVec_nil (payload : Bytes) (h : payload.length < 256 ^ 8) :
    readVec (writeVec payload) = some (payload, []) := by
  have key := readVec_writeVec payload [] h
  rwa [List.append_nil] at key

/-- Representability of a `HandshakeMessage` value in the Rust types: the
X25519 public keys are 32-byte arrays and every `Vec<u8>`/`String` length
fits in a `u64`. -/
def HandshakeMessage.wf : HandshakeMessage → Prop
  | .ClientHello pk mpk cid vip =>
      pk.length = 32 ∧ mpk.length < 256 ^ 8 ∧ cid.length < 256 ^ 8 ∧
        vip.length < 256 ^ 8
  | .ServerHello spk ct sig =>
      spk.length = 32 ∧ ct.length < 256 ^ 8 ∧ sig.length < 256 ^ 8
  | .ClientFinish ec => ec.length < 256 ^ 8
  | .ServerFinish _ => True

/-- C8: for every representable value of each of the four variants,
serialization is deterministic and deserializing the serialized bytes
returns the original message. -/
theorem serialize_message_roundtrip (m : HandshakeMessage) (h : m.wf) :
    (∀ m', m' = m → serialize_message m' = serialize_message m) ∧
    deserialize_message (serialize_message m) = .ok m := by
  refine ⟨fun m' hm => hm ▸ rfl, ?_⟩
  have hcore : deserializeCore (serialize_message m) = some m := by
    cases m with
    | ClientHello pk mpk cid vip =>
      obtain ⟨h1, h2, h3, h4⟩ := h
      simp only [serialize_message, deserializeCore]
      rw [List.append_assoc, List.append_assoc, List.append_assoc,
        takeExact_toLE]
      simp only [Option.bind_eq_bind, Option.some_bind, fromLE_toLE]
      norm_num
      rw [takeExact_append h1]
      simp only [Option.some_bind]
      rw [readVec_writeVec _ _ h2]
      simp only [Option.some_bind]
      rw [readVec_writeVec _ _ h3]
      simp only [Option.some_bind]
      rw [readVec_writeVec_nil _ h4]
      rfl
    | ServerHello spk ct sig =>
      obtain ⟨h1, h2, h3⟩ := h
      simp only [serialize_message, deserializeCore]
      rw [List.append_assoc, List.append_assoc, takeExact_toLE]
      simp only [Option.bind_eq_bind, Option.some_bind, fromLE_toLE]
      norm_num
      rw [takeExact_append h1]
      simp only [Option.some_bind]
      rw [readVec_writeVec _ _ h2]
      simp only [Option.some_bind]
      rw [readVec_writeVec_nil _ h3]
      rfl
    | ClientFinish ec =>
      simp only [serialize_message, deserializeCore]
      rw [takeExact_toLE]
      simp only [Option.bind_eq_bind, Option.some_bind, fromLE_toLE]
      norm_num
      rw [readVec_writeVec_nil _ h]
      rfl
    | ServerFinish b =>
      cases b <;> rfl
  unfold deserialize_message
  rw [hcore]

/-- Witness for C8 at a concrete `ClientHello`. -/
theorem serialize_message_roundtrip_witness :
    deserialize_message (serialize_message
      (.ClientHello (List.replicate 32 1) [2, 2] [116] [49, 48])) =
      .ok (.ClientHello (List.replicate 32 1) [2, 2] [116] [49, 48]) :=
  (serialize_message_roundtrip
    (.ClientHello (List.replicate 32 1) [2, 2] [116] [49, 48])
    (by constructor <;> norm_num [HandshakeMessage.wf])).2

/-! ## `asymmetric.rs`: identity store and client verifier

`ed25519_dalek` is external: `derive` maps a 32-byte signing key to its
verifying key (`SigningKey::verifying_key`), `genKey` maps the CSPRNG draw
to a fresh signing key (`SigningKey::generate`), and `edVerify pk msg sig`
is the boolean outcome of `VerifyingKey::verify`. The key directory is a
record of whether the directory exists and the two key files' contents. -/

structure ServerIdentity where
  signing_key : Bytes
  verifying_key : Bytes

structure FileSys where
  dirExists : Bool
  privFile : Option Bytes
  pubFile : Option Bytes
deriving DecidableEq

/-- Embeds `ServerIdentity::generate`. -/
def ServerIdentity.generate (derive : Bytes → Bytes) (genKey : Nat → Bytes)
    (rng : Nat) : ServerIdentity :=
  let signing_key := genKey rng
  ⟨signing_key, derive signing_key⟩

/-- Embeds `ServerIdentity::load_from_file`: reject any contents that are
not exactly 32 bytes, otherwise load and derive the verifying key. -/
def ServerIdentity.load_from_file (derive : Bytes → Bytes)
    (private_bytes : Bytes) : Except String ServerIdentity :=
  if private_bytes.length ≠ 32 then
    .error "私钥文件格式错误"
  else
    .ok ⟨private_bytes, derive private_bytes⟩

/-- Embeds `ServerIdentity::save_to_file`: write both key files. -/
def ServerIdentity.save_to_file (idt : ServerIdentity) (fs : FileSys) : FileSys :=
  { fs with privFile := some idt.signing_key, pubFile := some idt.verifying_key }

/-- Embeds `ServerIdentity::load_or_generate`: ensure the directory exists;
when the private-key file exists delegate to `load_from_file` (whatever its
length); otherwise generate a fresh pair and save both halves. The updated
directory state is returned alongside the fallible identity. -/
def ServerIdentity.load_or_generate (derive : Bytes → Bytes)
    (genKey : Nat → Bytes) (rng : Nat) (fs : FileSys) :
    Except String ServerIdentity × FileSys :=
  let fs1 : FileSys := { fs with dirExists := true }
  match fs1.privFile with
  | some private_bytes => (ServerIdentity.load_from_file derive private_bytes, fs1)
  | none =>
      let identity := ServerIdentity.generate derive genKey rng
      (.ok identity, identity.save_to_file fs1)

/-- Embeds `ServerIdentity::sign` as the abstract signing primitive applied
to the held signing key. -/
def ServerIdentity.sign (edSign : Bytes → Bytes → Bytes) (idt : ServerIdentity)
    (message : Bytes) : Bytes :=
  edSign idt.signing_key message

/-- The `ClientVerifier` struct: the server's stored 32-byte public key. -/
structure ClientVerifier where
  server_public_key : Bytes

/-- Embeds `ClientVerifier::verify`: reject a signature that is not exactly
64 bytes, then apply Ed25519 verification under the stored key. -/
def ClientVerifier.verify (edVerify : Bytes → Bytes → Bytes → Bool)
    (v : ClientVerifier) (message signature_bytes : Bytes) :
    Except String Unit :=
  if signature_bytes.length ≠ 64 then
    .error "签名长度错误"
  else if edVerify v.server_public_key message signature_bytes then
    .ok ()
  else
    .error "签名验证失败"

/-! ## `vpn_server/src/main.rs`: tables and per-datagram handlers

`SocketAddr` endpoints are abstract `Nat` identifiers. The two tables
guarded by mutexes are association lists; a handler takes the state it
observes and returns the updated state plus the I/O action it performs.
The TUN write path is modelled for the Linux build (`TUN_READ_OFFSET = 0`,
no 4-byte address-family prefix). -/

structure Ipv4 where
  a : Nat
  b : Nat
  c : Nat
  d : Nat
deriving DecidableEq

/-- The per-client `Session` record. -/
structure Session where
  session_key : Bytes
  peer_addr : Nat
deriving DecidableEq

/-- The server's two shared tables. -/
structure ServerState where
  sessions : List (Nat × Session)
  peers : List (Ipv4 × Nat)
deriving DecidableEq

/-- Embeds `parse_ipv4_header`: at least 20 bytes, version nibble 4, source
IP from bytes 12-15 and destination IP from bytes 16-19. -/
def parse_ipv4_header (data : Bytes) : Except String (Ipv4 × Ipv4) :=
  if data.length < 20 then
    .error "数据包太短"
  else if data.getD 0 0 / 16 ≠ 4 then
    .error "不是 IPv4 包"
  else
    .ok (⟨data.getD 12 0, data.getD 13 0, data.getD 14 0, data.getD 15 0⟩,
         ⟨data.getD 16 0, data.getD 17 0, data.getD 18 0, data.getD 19 0⟩)

/-- Observable I/O of one server handler invocation. -/
inductive ServerAction where
  | drop
  | sendUdp (addr : Nat) (payload : Bytes)
  | writeTun (payload : Bytes)
deriving DecidableEq

/-- Embeds the `ClientHello` arm of `handle_handshake`: fresh server
handshake, ML-KEM encapsulation, signing `server_pubkey ‖ client_pubkey`
into the placeholder field, session-key computation, session insertion,
peer-table insertion when the declared virtual IP parses, and emission of
the signed `ServerHello`. `sign` is the server identity's signing closure
and `parseIp` is the standard library's IPv4 string parser. -/
def handle_handshake (x : X25519) (kem : MLKem) (blake3 : Bytes → Bytes)
    (sign : Bytes → Bytes) (parseIp : Bytes → Option Ipv4) (psk : Bytes)
    (sSec rngK : Nat) (client_addr : Nat) (msg : HandshakeMessage)
    (st : ServerState) : ServerState × Option HandshakeMessage :=
  match msg with
  | .ClientHello client_pubkey client_mlkem_pk _client_id virtual_ip =>
      let server_handshake := ServerHandshake.new x sSec psk
      match server_handshake.process_client_hello kem rngK client_pubkey
          client_mlkem_pk with
      | .error _ => (st, none)
      | .ok (server_hello, mlkem_shared) =>
          let server_hello :=
            match server_hello with
            | .ServerHello server_pubkey mlkem_ciphertext _sig =>
                HandshakeMessage.ServerHello server_pubkey mlkem_ciphertext
                  (sign (server_pubkey ++ client_pubkey))
            | other => other
          match server_handshake.compute_session_key x blake3 client_pubkey
              mlkem_shared with
          | .error _ => (st, none)
          | .ok session_key =>
              let sessions1 := mapInsert st.sessions client_addr
                ⟨session_key, client_addr⟩
              let peers1 :=
                match parseIp virtual_ip with
                | some vip => mapInsert st.peers vip client_addr
                | none => st.peers
              (⟨sessions1, peers1⟩, some server_hello)
  | _ => (st, none)

/-- Embeds `handle_data_packet`: session lookup, decrypt, IPv4 parse,
auto-learning of the source IP, then dispatch — re-encrypt and UDP-send on
a peer-table hit, drop on a miss inside `10.0.0.x`, TUN write otherwise.
`encNonce` is the random nonce drawn for the re-encryption. -/
def handle_data_packet (A : Aead) (encNonce : Bytes) (src_addr : Nat)
    (encrypted_data : Bytes) (st : ServerState) : ServerState × ServerAction :=
  match mapLookup st.sessions src_addr with
  | none => (st, .drop)
  | some session =>
      match Cipher.new session.session_key with
      | .error _ => (st, .drop)
      | .ok cipher =>
          match cipher.decrypt A encrypted_data with
          | .error _ => (st, .drop)
          | .ok ip_packet =>
              match parse_ipv4_header ip_packet with
              | .error _ => (st, .drop)
              | .ok (src_ip, dst_ip) =>
                  let peers1 :=
                    if mapLookup st.peers src_ip ≠ some src_addr then
                      mapInsert st.peers src_ip src_addr
                    else st.peers
                  let st1 : ServerState := ⟨st.sessions, peers1⟩
                  match mapLookup st1.peers dst_ip with
                  | some target_addr =>
                      match mapLookup st1.sessions target_addr with
                      | none => (st1, .drop)
                      | some target_session =>
                          match Cipher.new target_session.session_key with
                          | .error _ => (st1, .drop)
                          | .ok target_cipher =>
                              match target_cipher.encrypt A encNonce ip_packet with
                              | .ok new_packet =>
                                  (st1, .sendUdp target_addr new_packet)
                              | .error _ => (st1, .drop)
                  | none =>
                      if dst_ip.a = 10 ∧ dst_ip.b = 0 ∧ dst_ip.c = 0 then
                        (st1, .drop)
                      else
                        (st1, .writeTun ip_packet)

/-! ## `vpn_client/src/main.rs`: handshake receive path

The portion of `perform_handshake` that runs after `ServerHello` bytes
arrive: decode dispatch, signature verification over
`server_pubkey ‖ client_pubkey` under the stored server public key, then
session-key computation. Any error propagates out (`?`), aborting the
handshake with no retry. -/

def perform_handshake_recv (x : X25519) (kem : MLKem) (blake3 : Bytes → Bytes)
    (edVerify : Bytes → Bytes → Bytes → Bool) (v : ClientVerifier)
    (ch : ClientHandshake) (client_pubkey : Bytes) (msg : HandshakeMessage) :
    Except String Bytes :=
  match msg with
  | .ServerHello server_pubkey mlkem_ciphertext signature =>
      match v.verify edVerify (server_pubkey ++ client_pubkey) signature with
      | .error e => .error e
      | .ok _ =>
          ch.process_server_hello x kem blake3 server_pubkey mlkem_ciphertext
  | _ => .error "预期收到 ServerHello"

/-- Discriminates the `ServerHello` variant (used to state the
unexpected-variant clause). -/
def HandshakeMessage.isServerHello : HandshakeMessage → Bool
  | .ServerHello _ _ _ => true
  | _ => false

theorem mapLookup_filter_ne {κ α : Type} [DecidableEq κ]
    (m : List (κ × α)) (k k' : κ) (h : k' ≠ k) :
    mapLookup (m.filter fun p => p.1 ≠ k) k' = mapLookup m k' := by
  induction m with
  | nil => rfl
  | cons p rest ih =>
    rcases p with ⟨pk, pv⟩
    by_cases hp : pk = k
    · have hf : List.filter (fun q => decide (q.1 ≠ k)) ((pk, pv) :: rest) =
          List.filter (fun q => decide (q.1 ≠ k)) rest := by
        simp [List.filter, hp]
      rw [hf, ih, mapLookup, if_neg (fun he => h (he.symm.trans hp))]
    · have hf : List.filter (fun q => decide (q.1 ≠ k)) ((pk, pv) :: rest) =
          (pk, pv) :: List.filter (fun q => decide (q.1 ≠ k)) rest := by
        simp [List.filter, hp]
      rw [hf, mapLookup, mapLookup]
      by_cases hq : pk = k'
      · rw [if_pos hq, if_pos hq]
      · rw [if_neg hq, if_neg hq, ih]

theorem mapLookup_insert_eq {κ α : Type} [DecidableEq κ]
    (m : List (κ × α)) (k k' : κ) (v : α) :
    mapLookup (mapInsert m k v) k' =
      if k = k' then some v else mapLookup m k' := by
  by_cases hk : k = k'
  · rw [if_pos hk, mapInsert, mapLookup, if_pos hk]
  · rw [if_neg hk, mapInsert, mapLookup, if_neg hk,
      mapLookup_filter_ne _ _ _ (fun he => hk he.symm)]

/-- C6 counterexample: a key directory whose private-key file exists with 31
bytes. The claim says a fresh keypair is generated and written; the code
instead fails with the format error and writes nothing. -/
theorem load_or_generate_short_file_errors :
    (ServerIdentity.load_or_generate id (fun _ => List.replicate 32 1) 0
        ⟨false, some (List.replicate 31 0), none⟩).1 = .error "私钥文件格式错误" ∧
    (ServerIdentity.load_or_generate id (fun _ => List.replicate 32 1) 0
        ⟨false, some (List.replicate 31 0), none⟩).2.privFile =
      some (List.replicate 31 0) := by
  constructor <;> rfl

/-- C6 (amended): `load_or_generate` marks the directory created in every
case; loads and derives when the file exists with exactly 32 bytes; only
when the file is missing generates a fresh pair from the CSPRNG and writes
both 32-byte halves; and when the file exists with any other length it
returns the format error without generating or writing anything. -/
theorem load_or_generate_cases (derive : Bytes → Bytes) (genKey : Nat → Bytes)
    (rng : Nat) (fs : FileSys)
    (hgen : (genKey rng).length = 32) (hder : ∀ b, (derive b).length = 32) :
    (ServerIdentity.load_or_generate derive genKey rng fs).2.dirExists = true ∧
    (∀ b, fs.privFile = some b → b.length = 32 →
      ServerIdentity.load_or_generate derive genKey rng fs =
        (.ok ⟨b, derive b⟩, ⟨true, fs.privFile, fs.pubFile⟩)) ∧
    (fs.privFile = none →
      ServerIdentity.load_or_generate derive genKey rng fs =
        (.ok ⟨genKey rng, derive (genKey rng)⟩,
         ⟨true, some (genKey rng), some (derive (genKey rng))⟩) ∧
      (genKey rng).length = 32 ∧ (derive (genKey rng)).length = 32) ∧
    (∀ b, fs.privFile = some b → b.length ≠ 32 →
      ServerIdentity.load_or_generate derive genKey rng fs =
        (.error "私钥文件格式错误", ⟨true, fs.privFile, fs.pubFile⟩)) := by
  obtain ⟨dirE, priv, pubF⟩ := fs
  refine ⟨?_, ?_, ?_, ?_⟩
  · cases priv <;>
      simp [ServerIdentity.load_or_generate, ServerIdentity.save_to_file,
        ServerIdentity.generate]
  · intro b hb h32
    cases priv with
    | none => cases hb
    | some b0 =>
      cases hb
      simp [ServerIdentity.load_or_generate, ServerIdentity.load_from_file, h32]
  · intro hnone
    cases priv with
    | some b0 => cases hnone
    | none =>
      refine ⟨?_, hgen, hder _⟩
      simp [ServerIdentity.load_or_generate, ServerIdentity.generate,
        ServerIdentity.save_to_file]
  · intro b hb h32
    cases priv with
    | none => cases hb
    | some b0 =>
      cases hb
      simp [ServerIdentity.load_or_generate, ServerIdentity.load_from_file, h32]

/-- Witness for the amended C6 at a concrete missing-file directory. -/
theorem load_or_generate_cases_witness :
    ServerIdentity.load_or_generate (fun _ => List.replicate 32 2)
        (fun _ => List.replicate 32 1) 0 ⟨false, none, none⟩ =
      (.ok ⟨List.replicate 32 1, List.replicate 32 2⟩,
       ⟨true, some (List.replicate 32 1), some (List.replicate 32 2)⟩) :=
  ((load_or_generate_cases (fun _ => List.replicate 32 2)
      (fun _ => List.replicate 32 1) 0 ⟨false, none, none⟩ (by simp)
      (fun _ => by simp)).2.2.1 rfl).1

/-- C4: every `ServerHello` the server's handshake handler emits carries the
Ed25519 signature of `server_pubkey ‖ client_pubkey` by the identity's
signing closure; the client verifies exactly that concatenation under the
stored server key and aborts with the propagated error on verification
failure, on decapsulation failure, and on an unexpected variant. -/
theorem serverhello_signature_binding (x : X25519) (kem : MLKem)
    (blake3 : Bytes → Bytes) (edVerify : Bytes → Bytes → Bytes → Bool) :
    (∀ sign parseIp psk sSec rngK client_addr cpk cmpk cid vip st st' resp,
      handle_handshake x kem blake3 sign parseIp psk sSec rngK client_addr
          (.ClientHello cpk cmpk cid vip) st = (st', some resp) →
      ∃ spk ct, resp = .ServerHello spk ct (sign (spk ++ cpk))) ∧
    (∀ v ch cpk spk ct sig e,
      ClientVerifier.verify edVerify v (spk ++ cpk) sig = .error e →
      perform_handshake_recv x kem blake3 edVerify v ch cpk
        (.ServerHello spk ct sig) = .error e) ∧
    (∀ v ch cpk spk ct sig,
      ClientVerifier.verify edVerify v (spk ++ cpk) sig = .ok () →
      kem.decap ct ch.mlkem_keypair.secret = none →
      perform_handshake_recv x kem blake3 edVerify v ch cpk
        (.ServerHello spk ct sig) = .error "ML-KEM decapsulation failed") ∧
    (∀ v ch cpk msg, msg.isServerHello = false →
      perform_handshake_recv x kem blake3 edVerify v ch cpk msg =
        .error "预期收到 ServerHello") := by
  refine ⟨?_, ?_, ?_, ?_⟩
  · intro sign parseIp psk sSec rngK client_addr cpk cmpk cid vip st st' resp h
    cases henc : kem.encap cmpk rngK with
    | none =>
      simp only [handle_handshake, ServerHandshake.process_client_hello,
        henc] at h
      cases h
    | some p =>
      rcases p with ⟨ct0, sh0⟩
      simp only [handle_handshake, ServerHandshake.process_client_hello,
        ServerHandshake.compute_session_key, henc] at h
      cases h
      exact ⟨_, _, rfl⟩
  · intro v ch cpk spk ct sig e hver
    simp only [perform_handshake_recv, hver]
  · intro v ch cpk spk ct sig hver hdec
    simp only [perform_handshake_recv, hver,
      ClientHandshake.process_server_hello, hdec]
  · intro v ch cpk msg hmsg
    cases msg <;>
      simp [perform_handshake_recv, HandshakeMessage.isServerHello] at hmsg ⊢

/-- Witness for C4: a verification failure propagates out of the client's
receive path at concrete inputs. -/
theorem serverhello_signature_binding_witness :
    perform_handshake_recv xAdd kemEcho id (fun _ _ _ => false) ⟨[]⟩
      (ClientHandshake.new xAdd kemEcho 5 6 (List.replicate 32 9)) [5]
      (.ServerHello [7] [6] []) = .error "签名长度错误" :=
  (serverhello_signature_binding xAdd kemEcho id (fun _ _ _ => false)).2.1
    ⟨[]⟩ (ClientHandshake.new xAdd kemEcho 5 6 (List.replicate 32 9))
    [5] [7] [6] [] "签名长度错误" rfl

/-- C10: `ServerHandshake::process_client_hello` always returns a
`ServerHello` whose `signature` field is the empty vector; a client that
receives such an unsigned `ServerHello` rejects it through the 64-byte
signature-length check, whatever the Ed25519 verifier says. -/
theorem process_client_hello_unsigned (x : X25519) (kem : MLKem)
    (blake3 : Bytes → Bytes) (edVerify : Bytes → Bytes → Bytes → Bool) :
    (∀ (st : ServerHandshake) rng cpk cmpk msg sh,
      st.process_client_hello kem rng cpk cmpk = .ok (msg, sh) →
      ∃ spk ct, msg = .ServerHello spk ct []) ∧
    (∀ v ch cpk spk ct,
      perform_handshake_recv x kem blake3 edVerify v ch cpk
        (.ServerHello spk ct []) = .error "签名长度错误") := by
  constructor
  · intro st rng cpk cmpk msg sh h
    cases henc : kem.encap cmpk rng with
    | none =>
      simp only [ServerHandshake.process_client_hello, henc] at h
      cases h
    | some p =>
      rcases p with ⟨ct0, sh0⟩
      simp only [ServerHandshake.process_client_hello, henc] at h
      cases h
      exact ⟨_, _, rfl⟩
  · intro v ch cpk spk ct
    rfl

/-- Witness for C10 at a concrete successful encapsulation. -/
theorem process_client_hello_unsigned_witness :
    ∃ spk ct, (HandshakeMessage.ServerHello [7] [6] [] : HandshakeMessage) =
      .ServerHello spk ct [] :=
  (process_client_hello_unsigned xAdd kemEcho id (fun _ _ _ => true)).1
    (ServerHandshake.new xAdd 7 (List.replicate 32 9)) 8 [5] [6]
    (.ServerHello [7] [6] []) [6] rfl

/-- A concrete IPv4 datagram: version 4, source `10.0.0.2`, destination
`8.8.8.8` (outside the VPN subnet `10.0.0.0/24`). -/
def ipPkt : Bytes :=
  [69, 0, 0, 0, 0, 0, 0, 0, 0, 0, 0, 0, 10, 0, 0, 2, 8, 8, 8, 8]

/-- A server state holding one established session for endpoint `1` and an
empty peer table. -/
def stOne : ServerState := ⟨[(1, ⟨List.replicate 32 0, 1⟩)], []⟩

/-- C5 counterexample: a data record from an established session decrypts to
an IPv4 datagram for `8.8.8.8` — no peer entry, outside `10.0.0.0/24` — and
the handler writes the plaintext datagram to the TUN device instead of
dropping it; the `--gateway` flag is not an input of the data path at all. -/
theorem data_packet_outside_subnet_writes_tun :
    (handle_data_packet aeadId (List.replicate 12 0) 1
        (List.replicate 12 0 ++ ipPkt) stOne).2 = .writeTun ipPkt ∧
    ServerAction.writeTun ipPkt ≠ ServerAction.drop := by
  exact ⟨by decide, by decide⟩

/-- C5 (amended): on a peer-table miss with the destination outside
`10.0.0.0/24`, the server writes the decrypted datagram to the TUN device —
no UDP datagram is sent — regardless of whether gateway mode was enabled at
startup, since the per-packet path never consults that flag. -/
theorem data_packet_outside_subnet_writes_tun_general (A : Aead)
    (encNonce : Bytes) (src_addr : Nat) (encrypted_data : Bytes)
    (st : ServerState) (session : Session) (cipher : Cipher)
    (ip_packet : Bytes) (src_ip dst_ip : Ipv4)
    (hs : mapLookup st.sessions src_addr = some session)
    (hc : Cipher.new session.session_key = .ok cipher)
    (hd : cipher.decrypt A encrypted_data = .ok ip_packet)
    (hp : parse_ipv4_header ip_packet = .ok (src_ip, dst_ip))
    (hmiss : mapLookup
        (if mapLookup st.peers src_ip ≠ some src_addr then
          mapInsert st.peers src_ip src_addr
        else st.peers) dst_ip = none)
    (hout : ¬(dst_ip.a = 10 ∧ dst_ip.b = 0 ∧ dst_ip.c = 0)) :
    (handle_data_packet A encNonce src_addr encrypted_data st).2 =
      .writeTun ip_packet := by
  simp only [handle_data_packet, hs, hc, hd, hp, hmiss]
  rw [if_neg hout]

/-- Witness for the amended C5 at the concrete one-session state. -/
theorem data_packet_outside_subnet_writes_tun_general_witness :
    (handle_data_packet aeadId (List.replicate 12 1) 1
        (List.replicate 12 0 ++ ipPkt) stOne).2 = .writeTun ipPkt :=
  data_packet_outside_subnet_writes_tun_general aeadId (List.replicate 12 1) 1
    (List.replicate 12 0 ++ ipPkt) stOne ⟨List.replicate 32 0, 1⟩
    ⟨List.replicate 32 0⟩ ipPkt ⟨10, 0, 0, 2⟩ ⟨8, 8, 8, 8⟩
    rfl rfl rfl rfl rfl (by decide)

/-- Helper for C9: an entry of the auto-learned peer table is either an old
entry or maps to the data packet's source endpoint, which has a session. -/
theorem peers1_entry {st : ServerState} {src_ip : Ipv4} {src_addr : Nat}
    {ip : Ipv4} {ep : Nat}
    (h : mapLookup
        (if mapLookup st.peers src_ip ≠ some src_addr then
          mapInsert st.peers src_ip src_addr
        else st.peers) ip = some ep)
    (hs : (mapLookup st.sessions src_addr).isSome = true) :
    mapLookup st.peers ip = some ep ∨
      (mapLookup st.sessions ep).isSome = true := by
  by_cases hcond : mapLookup st.peers src_ip ≠ some src_addr
  · rw [if_pos hcond, mapLookup_insert_eq] at h
    by_cases hip : src_ip = ip
    · rw [if_pos hip] at h
      cases h
      exact Or.inr hs
    · rw [if_neg hip] at h
      exact Or.inl h
  · rw [if_neg hcond] at h
    exact Or.inl h

/-- C9: sessions are never removed by either handler, and every peer-table
entry either predates the handler invocation or maps to an endpoint present
in the session table as it stands at the insertion — the handshake handler
inserts the session before the peer entry, and the data handler only
auto-learns the source endpoint whose session lookup just succeeded. -/
theorem peer_entries_have_sessions (x : X25519) (kem : MLKem)
    (blake3 : Bytes → Bytes) (A : Aead) :
    (∀ sign parseIp psk sSec rngK client_addr msg st ep,
      (mapLookup st.sessions ep).isSome = true →
      (mapLookup (handle_handshake x kem blake3 sign parseIp psk sSec rngK
          client_addr msg st).1.sessions ep).isSome = true) ∧
    (∀ sign parseIp psk sSec rngK client_addr msg st ip ep,
      mapLookup (handle_handshake x kem blake3 sign parseIp psk sSec rngK
          client_addr msg st).1.peers ip = some ep →
      mapLookup st.peers ip = some ep ∨
      (mapLookup (handle_handshake x kem blake3 sign parseIp psk sSec rngK
          client_addr msg st).1.sessions ep).isSome = true) ∧
    (∀ encNonce src_addr data st,
      (handle_data_packet A encNonce src_addr data st).1.sessions =
        st.sessions) ∧
    (∀ encNonce src_addr data st ip ep,
      mapLookup (handle_data_packet A encNonce src_addr data st).1.peers ip =
        some ep →
      mapLookup st.peers ip = some ep ∨
      (mapLookup st.sessions ep).isSome = true) := by
  refine ⟨?_, ?_, ?_, ?_⟩
  · intro sign parseIp psk sSec rngK client_addr msg st ep h
    cases msg with
    | ClientHello cpk cmpk cid vip =>
      cases henc : kem.encap cmpk rngK with
      | none =>
        simp only [handle_handshake, ServerHandshake.process_client_hello,
          henc]
        exact h
      | some p =>
        rcases p with ⟨ct0, sh0⟩
        simp only [handle_handshake, ServerHandshake.process_client_hello,
          ServerHandshake.compute_session_key, henc]
        rw [mapLookup_insert_eq]
        by_cases hep : client_addr = ep
        · rw [if_pos hep]; rfl
        · rw [if_neg hep]; exact h
    | ServerHello a b c => exact h
    | ClientFinish a => exact h
    | ServerFinish a => exact h
  · intro sign parseIp psk sSec rngK client_addr msg st ip ep h
    cases msg with
    | ClientHello cpk cmpk cid vip =>
      cases henc : kem.encap cmpk rngK with
      | none =>
        simp only [handle_handshake, ServerHandshake.process_client_hello,
          henc] at h ⊢
        exact Or.inl h
      | some p =>
        rcases p with ⟨ct0, sh0⟩
        simp only [handle_handshake, ServerHandshake.process_client_hello,
          ServerHandshake.compute_session_key, henc] at h ⊢
        cases hpi : parseIp vip with
        | none =>
          rw [hpi] at h
          exact Or.inl h
        | some vip0 =>
          rw [hpi] at h
          rw [mapLookup_insert_eq] at h
          by_cases hip : vip0 = ip
          · rw [if_pos hip] at h
            cases h
            right
            rw [mapLookup_insert_eq, if_pos rfl]
            rfl
          · rw [if_neg hip] at h
            exact Or.inl h
    | ServerHello a b c => exact Or.inl h
    | ClientFinish a => exact Or.inl h
    | ServerFinish a => exact Or.inl h
  · intro encNonce src_addr data st
    unfold handle_data_packet
    dsimp only
    repeat' split
    all_goals rfl
  · intro encNonce src_addr data st ip ep h
    unfold handle_data_packet at h
    cases hs : mapLookup st.sessions src_addr with
    | none =>
      rw [hs] at h
      exact Or.inl h
    | some session =>
      rw [hs] at h
      dsimp only at h
      have hsome : (mapLookup st.sessions src_addr).isSome = true := by
        rw [hs]; rfl
      cases hc : Cipher.new session.session_key with
      | error e =>
        rw [hc] at h
        exact Or.inl h
      | ok cipher =>
        rw [hc] at h
        dsimp only at h
        cases hd : cipher.decrypt A data with
        | error e =>
          rw [hd] at h
          exact Or.inl h
        | ok ip_packet =>
          rw [hd] at h
          dsimp only at h
          cases hp : parse_ipv4_header ip_packet with
          | error e =>
            rw [hp] at h
            exact Or.inl h
          | ok pair =>
            rcases pair with ⟨src_ip, dst_ip⟩
            rw [hp] at h
            dsimp only at h
            split at h
            · split at h
              · exact peers1_entry h hsome
              · split at h
                · exact peers1_entry h hsome
                · split at h
                  · exact peers1_entry h hsome
                  · exact peers1_entry h hsome
            · split at h
              · exact peers1_entry h hsome
              · exact peers1_entry h hsome

/-- Witness for C9: the auto-learn clause applied at the concrete
one-session state. -/
theorem peer_entries_have_sessions_witness :
    mapLookup stOne.peers ⟨10, 0, 0, 2⟩ = some 1 ∨
      (mapLookup stOne.sessions 1).isSome = true :=
  (peer_entries_have_sessions xAdd kemEcho id aeadId).2.2.2
    (List.replicate 12 0) 1 (List.replicate 12 0 ++ ipPkt) stOne
    ⟨10, 0, 0, 2⟩ 1 (by decide)
